import Mathlib

/-!
Shallow embedding of the `dom-to-semantic-markdown` pipeline.

The definitions below are translated from the TypeScript source:
`src/core/domUtils.ts` (main-content detection, escaping),
`src/core/urlUtils.ts` (URL refification),
`src/core/htmlToMarkdownAST.ts` (the table-driven translator variant),
`src/core/markdownASTToString.ts` (the renderer), and `src/index.ts`
(the entry points).

Modelling conventions:
* JavaScript strings are modelled by `String` / `List Char` (one `Char`
  per code point; the UTF-16 length of a JS string and the char length
  agree on the BMP inputs used here).
* The DOM is modelled by the `DomNode` tree below: only text nodes and
  element nodes (comment/CDATA nodes are dropped by the translator
  anyway), no shadow roots and no slot assignments (so
  `element.shadowRoot` is `null` and `slot.assignedNodes()` is empty,
  as in a shadow-DOM-free document).
* Element properties (`href`, `src`, `alt`, `poster`, `id`, `class`,
  `controls`) are read from the attribute list; URL resolution of the
  `href`/`src` reflected properties is environment-dependent and not
  modelled.
* The default configuration is modelled: no `overrideElementProcessing`
  / `processUnhandledElement` / `overrideNodeRenderer` /
  `renderCustomNode` hooks, no metadata extraction, and no
  `excludeInvisibleElements` (visibility depends on layout boxes, which
  a DOM value does not determine).
* The floating comparison `linkDensity < 0.3` is modelled by the exact
  rational comparison `10 * linkLength < 3 * textLength`.
-/

/-! ### JavaScript string primitives -/

/-- The whitespace characters recognised by JS `trim` / `\s` (the common
ones; exotic Unicode space separators are not used by the claims). -/
def jsIsWs (c : Char) : Bool :=
  c = ' ' || c = '\t' || c = '\n' || c = '\r' || c = '\x0b' || c = '\x0c' || c = ' '

/-- JS `String.prototype.trim` on a char list. -/
def jsTrim (l : List Char) : List Char :=
  ((l.dropWhile jsIsWs).reverse.dropWhile jsIsWs).reverse

/-- JS `String.prototype.trim` on a `String`. -/
def strTrimS (s : String) : String := ⟨jsTrim s.data⟩

/-- Is the first list a prefix of the second? -/
def listIsPref : List Char → List Char → Bool
  | [], _ => true
  | _ :: _, [] => false
  | a :: p, b :: q => a == b && listIsPref p q

/-- JS `String.prototype.startsWith`. -/
def strStartsWith (s pre : String) : Bool := listIsPref pre.data s.data

/-- Substring occurrence test, JS `String.prototype.includes`. -/
def listIncludes (needle : List Char) : List Char → Bool
  | [] => needle.isEmpty
  | c :: rest => listIsPref needle (c :: rest) || listIncludes needle rest

/-- JS `String.prototype.includes` on `String`. -/
def strIncludes (s sub : String) : Bool := listIncludes sub.data s.data

/-- JS `String.prototype.split` with a one-character separator
(keeps empty pieces, `"" → [""]`). -/
def jsSplitOnChar (sep : Char) : List Char → List (List Char)
  | [] => [[]]
  | c :: rest =>
    let r := jsSplitOnChar sep rest
    if c == sep then [] :: r
    else
      match r with
      | [] => [[c]]
      | h :: t => (c :: h) :: t

/-- Maximal non-whitespace runs of a char list (the token list of a
`class` attribute, i.e. `classList`). -/
def wsTokensAux : List Char → List Char → List (List Char)
  | [], acc => if acc.isEmpty then [] else [acc.reverse]
  | c :: rest, acc =>
    if jsIsWs c then
      if acc.isEmpty then wsTokensAux rest [] else acc.reverse :: wsTokensAux rest []
    else wsTokensAux rest (c :: acc)

/-- Whitespace-separated tokens of a string. -/
def wsTokens (l : List Char) : List (List Char) := wsTokensAux l []

/-- ASCII lower-casing of one character. -/
def asciiLowerChar (c : Char) : Char :=
  if 'A' ≤ c ∧ c ≤ 'Z' then Char.ofNat (c.toNat + 32) else c

/-- ASCII upper-casing of one character. -/
def asciiUpperChar (c : Char) : Char :=
  if 'a' ≤ c ∧ c ≤ 'z' then Char.ofNat (c.toNat - 32) else c

/-- JS `toLowerCase` restricted to ASCII (tag names are ASCII). -/
def asciiLower (s : String) : String := ⟨s.data.map asciiLowerChar⟩

/-- JS `toUpperCase` restricted to ASCII. -/
def asciiUpper (s : String) : String := ⟨s.data.map asciiUpperChar⟩

/-- Leading decimal digits of a char list. -/
def takeDigits : List Char → List Char
  | [] => []
  | c :: rest => if c.isDigit then c :: takeDigits rest else []

/-- Value of a digit list. -/
def digitsToNat (l : List Char) : Nat :=
  l.foldl (fun acc c => acc * 10 + (c.toNat - 48)) 0

/-- JS `Number.parseInt(s, 10)`; `none` models `NaN`. -/
def jsParseInt (s : String) : Option Int :=
  let l := s.data.dropWhile jsIsWs
  match l with
  | '-' :: rest =>
    let d := takeDigits rest
    if d.isEmpty then none else some (-(digitsToNat d : Int))
  | '+' :: rest =>
    let d := takeDigits rest
    if d.isEmpty then none else some (digitsToNat d : Int)
  | _ =>
    let d := takeDigits l
    if d.isEmpty then none else some (digitsToNat d : Int)

/-! ### `escapeMarkdownCharacters` (src/core/domUtils.ts) -/

/-- Replacement text for `&`. -/
def ampRep : List Char := ['&', 'a', 'm', 'p', ';']

/-- Replacement text for `<`. -/
def ltRep : List Char := ['&', 'l', 't', ';']

/-- Replacement text for `>`. -/
def gtRep : List Char := ['&', 'g', 't', ';']

/-- The characters of the regex character class in
`escapedText.replace(/([\\`*_{}[\]#+!|])/g, '\\$1')`. -/
def mdEscapeChars : List Char :=
  ['\\', '\x60', '*', '_', '\x7b', '\x7d', '[', ']', '#', '+', '!', '|']

/-- JS `s.replace(/c/g, rep)` for a single character `c`. -/
def jsReplaceChar (target : Char) (rep : List Char) : List Char → List Char
  | [] => []
  | c :: rest => (if c = target then rep else [c]) ++ jsReplaceChar target rep rest

/-- The backslash-escaping pass
`escapedText.replace(/([\\`*_{}[\]#+!|])/g, '\\$1')`. -/
def backslashEscape : List Char → List Char
  | [] => []
  | c :: rest => (if c ∈ mdEscapeChars then ['\\', c] else [c]) ++ backslashEscape rest

/-- `escapeMarkdownCharacters(text, isInlineCode)` from domUtils.ts:
returns the input unchanged for inline code or whitespace-only text,
otherwise entity-escapes `&`, `<`, `>` (in that order) and then
backslash-escapes the Markdown special characters. -/
def escapeMarkdownCharacters (text : String) (isInlineCode : Bool) : String :=
  if isInlineCode || (jsTrim text.data).isEmpty then text
  else
    ⟨backslashEscape
      (jsReplaceChar '>' gtRep (jsReplaceChar '<' ltRep (jsReplaceChar '&' ampRep text.data)))⟩

/-! ### The DOM model -/

/-- A DOM node: a text node or an element with a tag name, an attribute
list (`getAttribute` source) and a child-node list in document order. -/
inductive DomNode where
  | text (content : String)
  | elem (tag : String) (attrs : List (String × String)) (children : List DomNode)
  deriving Repr

/-- The child-node list of a node (empty for text nodes). -/
def childrenOf : DomNode → List DomNode
  | .text _ => []
  | .elem _ _ cs => cs

/-- The tag name as written (elements only). -/
def tagOf : DomNode → String
  | .text _ => ""
  | .elem t _ _ => t

/-- `getAttribute`. -/
def attrOf (n : DomNode) (name : String) : Option String :=
  match n with
  | .text _ => none
  | .elem _ attrs _ => attrs.lookup name

/-- An attribute with a default for the reflected string properties
(`href`, `src`, `alt`, `poster`, `id` are `""` when absent). -/
def attrOr (n : DomNode) (name : String) (dflt : String) : String :=
  (attrOf n name).getD dflt

/-- `element.id`. -/
def idOf (n : DomNode) : String := attrOr n "id" ""

/-- `element.classList` as a token list. -/
def classListOf (n : DomNode) : List String :=
  (wsTokens (attrOr n "class" "").data).map (fun l => (⟨l⟩ : String))

mutual
/-- `node.textContent`: concatenation of all descendant text. -/
def textContentOf : DomNode → List Char
  | .text s => s.data
  | .elem _ _ cs => textContentList cs
/-- `textContent` of a node list, in order. -/
def textContentList : List DomNode → List Char
  | [] => []
  | n :: rest => textContentOf n ++ textContentList rest
end

mutual
/-- All elements in the subtree rooted at a node (the node included)
whose lower-cased tag is in `tags`, in document order — the
`querySelectorAll('t1, t2')` / `getElementsByTagName` model. -/
def collectTags (tags : List String) : DomNode → List DomNode
  | .text _ => []
  | .elem t a cs =>
    (if tags.contains (asciiLower t) then [DomNode.elem t a cs] else []) ++ collectTagsIn tags cs
/-- All matching elements inside a node list, in document order. -/
def collectTagsIn (tags : List String) : List DomNode → List DomNode
  | [] => []
  | n :: rest => collectTags tags n ++ collectTagsIn tags rest
end

mutual
theorem sizeOf_le_of_mem_collectTags (tags : List String) (n : DomNode) (x : DomNode)
    (h : x ∈ collectTags tags n) : sizeOf x ≤ sizeOf n := by
  match n with
  | .text s => simp [collectTags] at h
  | .elem t a cs =>
    simp only [collectTags, List.mem_append] at h
    rcases h with h | h
    · split at h
      · simp only [List.mem_singleton] at h
        subst h
        exact Nat.le_refl _
      · simp at h
    · have := sizeOf_lt_of_mem_collectTagsIn tags cs x h
      simp only [DomNode.elem.sizeOf_spec]
      omega
theorem sizeOf_lt_of_mem_collectTagsIn (tags : List String) (l : List DomNode) (x : DomNode)
    (h : x ∈ collectTagsIn tags l) : sizeOf x < sizeOf l := by
  match l with
  | [] => simp [collectTagsIn] at h
  | n :: rest =>
    simp only [collectTagsIn, List.mem_append] at h
    simp only [List.cons.sizeOf_spec]
    rcases h with h | h
    · have := sizeOf_le_of_mem_collectTags tags n x h
      omega
    · have := sizeOf_lt_of_mem_collectTagsIn tags rest x h
      omega
end

theorem sizeOf_childrenOf_lt (n : DomNode) : sizeOf (childrenOf n) < sizeOf n := by
  match n with
  | .text s =>
    simp only [childrenOf, DomNode.text.sizeOf_spec]
    have : 0 < sizeOf s := by
      cases s
      simp
    simp only [List.nil.sizeOf_spec]
    omega
  | .elem t a cs =>
    simp only [childrenOf, DomNode.elem.sizeOf_spec]
    omega

/-! ### The main-content scoring heuristic (`calculateScore`) -/

/-- The "high impact attribute" vocabulary of `calculateScore`. -/
def highImpactAttributes : List String :=
  ["article", "content", "main-container", "main", "main-content"]

/-- Does one vocabulary word match the element:
`element.classList.contains(attr) || element.id.includes(attr)`. -/
def vocabMatch (n : DomNode) (w : String) : Bool :=
  (classListOf n).contains w || strIncludes (idOf n) w

/-- The score contributed by the `highImpactAttributes.forEach` loop:
`score += 10` once per matching vocabulary word. -/
def vocabScore (n : DomNode) : Nat :=
  highImpactAttributes.foldl (fun s w => if vocabMatch n w then s + 10 else s) 0

/-- The "high impact tags". -/
def highImpactTags : List String := ["article", "main", "section"]

/-- `+5` for an `article` / `main` / `section` tag. -/
def tagScore (n : DomNode) : Nat :=
  if highImpactTags.contains (asciiLower (tagOf n)) then 5 else 0

/-- `element.getElementsByTagName('p').length` (descendants only). -/
def paragraphCount (n : DomNode) : Nat := (collectTagsIn ["p"] (childrenOf n)).length

/-- `min(paragraphCount, 5)` points. -/
def paragraphScore (n : DomNode) : Nat := min (paragraphCount n) 5

/-- `min(floor(len / 200), 5)` points once the trimmed text length
exceeds 200. -/
def textScore (n : DomNode) : Nat :=
  let len := (jsTrim (textContentOf n)).length
  if 200 < len then min (len / 200) 5 else 0

/-- Sum of the `textContent` lengths of all descendant anchors. -/
def linkTextLen (n : DomNode) : Nat :=
  (collectTagsIn ["a"] (childrenOf n)).foldl (fun s a => s + (textContentOf a).length) 0

/-- `+5` when `linkLength / textLength < 0.3` (with `textLength || 1`);
the float comparison is modelled exactly as `10 * link < 3 * text`. -/
def densityScore (n : DomNode) : Nat :=
  let tl := (textContentOf n).length
  let tl1 := if tl = 0 then 1 else tl
  if 10 * linkTextLen n < 3 * tl1 then 5 else 0

/-- `+10` for a `data-main` or `data-content` attribute. -/
def dataAttrScore (n : DomNode) : Nat :=
  if (attrOf n "data-main").isSome || (attrOf n "data-content").isSome then 10 else 0

/-- `+10` when the `role` attribute value contains `main`. -/
def roleScore (n : DomNode) : Nat :=
  match attrOf n "role" with
  | some r => if strIncludes r "main" then 10 else 0
  | none => 0

/-- `calculateScore` from domUtils.ts: the sum of all heuristic
contributions. -/
def calculateScore (n : DomNode) : Nat :=
  vocabScore n + tagScore n + paragraphScore n + textScore n + densityScore n
    + dataAttrScore n + roleScore n

/-! ### Candidate collection and `detectMainContent` -/

/-- The position of an element in the tree: the list of element-child
indices from the root. `Element.contains` is prefix order on paths. -/
abbrev DomPath := List Nat

/-- A collected candidate: its path and its subtree. -/
abbrev Cand := DomPath × DomNode

/-- The fixed candidate threshold (`minScore = 20`). -/
def candMinScore : Nat := 20

mutual
/-- `collectCandidates` rooted at one element: push the element itself
when it reaches the threshold, then recurse into its element children. -/
def collectCandidatesAt (el : DomNode) (path : DomPath) : List Cand :=
  match el with
  | .text _ => []
  | .elem t a cs =>
    (if candMinScore ≤ calculateScore (.elem t a cs) then [(path, DomNode.elem t a cs)] else [])
      ++ collectCandidatesList cs path 0
/-- Candidate collection over a child-node list; `k` is the index of the
next element child. -/
def collectCandidatesList : List DomNode → DomPath → Nat → List Cand
  | [], _, _ => []
  | .text _ :: rest, path, k => collectCandidatesList rest path k
  | n :: rest, path, k =>
    collectCandidatesAt n (path ++ [k]) ++ collectCandidatesList rest path (k + 1)
end

/-- All candidates of the subtree rooted at `root` (the root included,
at path `[]`), in document order. -/
def collectCandidates (root : DomNode) : List Cand := collectCandidatesAt root []

/-- The comparator `(a, b) => calculateScore(b) - calculateScore(a)`:
`a` sorts before `b` when its score is at least `b`'s. -/
def scoreGe (x y : Cand) : Prop := calculateScore y.2 ≤ calculateScore x.2

instance : DecidableRel scoreGe := fun x y =>
  inferInstanceAs (Decidable (calculateScore y.2 ≤ calculateScore x.2))

instance : IsTotal Cand scoreGe :=
  ⟨fun x y => (Nat.le_total (calculateScore y.2) (calculateScore x.2)).elim Or.inl Or.inr⟩

instance : IsTrans Cand scoreGe :=
  ⟨fun _ _ _ h1 h2 => Nat.le_trans h2 h1⟩

/-- DOM `a.contains(b)` on paths: `b` is `a` or a descendant of `a`. -/
def pathContains : DomPath → DomPath → Bool
  | [], _ => true
  | _ :: _, [] => false
  | a :: p, b :: q => a == b && pathContains p q

/-- The "best independent candidate" loop of `detectMainContent`:
starting from `candidates[0]`, for `i = 1, …`, replace the current best
by `candidates[i]` when no other candidate contains it AND its score is
strictly greater than the current best's. -/
def pickBest (sorted : List Cand) (c0 : Cand) : Cand :=
  (sorted.enum.drop 1).foldl
    (fun best ic =>
      if (sorted.enum.any fun jc => (jc.1 != ic.1) && pathContains jc.2.1 ic.2.1) = false
          ∧ calculateScore best.2 < calculateScore ic.2.2 then
        ic.2
      else best)
    c0

/-- `detectMainContent` from domUtils.ts: collect candidates, return the
root when there are none, otherwise sort by descending score (stable,
as JS `Array.prototype.sort`) and run the best-independent loop. -/
def detectMainContent (rootElement : DomNode) : Cand :=
  let candidates := collectCandidates rootElement
  if candidates.isEmpty then ([], rootElement)
  else
    match List.insertionSort scoreGe candidates with
    | [] => ([], rootElement)
    | c0 :: rest => pickBest (c0 :: rest) c0

/-- `document.querySelector(tag)` at document level: first matching
element in document order, the document element included. -/
def querySelectorDoc (doc : DomNode) (tag : String) : Option DomNode :=
  (collectTags [tag] doc).head?

/-- `document.body`. -/
def docBody (doc : DomNode) : Option DomNode := querySelectorDoc doc "body"

/-- `findMainContent` from domUtils.ts: an explicit `<main>` wins;
otherwise detect over the body; without a body return the document
element. -/
def findMainContent (doc : DomNode) : DomNode :=
  match querySelectorDoc doc "main" with
  | some m => m
  | none =>
    match docBody doc with
    | none => doc
    | some b => (detectMainContent b).2


/-! ### The semantic Markdown AST (src/types/markdownTypes.ts) -/

mutual
/-- A semantic Markdown AST node. The `meta` and `custom` payloads are
irrelevant to every claim (the renderer emits nothing for them in the
default configuration and the refifier leaves them unchanged), so they
are carried without their opaque payloads. -/
inductive MdNode where
  | text (content : String)
  | bold (content : MdContent)
  | italic (content : MdContent)
  | strikethrough (content : MdContent)
  | heading (level : Nat) (content : MdContent)
  | link (href : String) (content : List MdNode)
  | image (src : String) (alt : Option String)
  | video (src : String) (poster : Option String) (controls : Bool)
  | list (ordered : Bool) (items : List MdListItem)
  | table (rows : List MdTableRow) (colIds : List String)
  | code (content : String) (language : Option String) (inline : Bool)
  | blockquote (content : List MdNode)
  | semanticHtml (htmlType : String) (content : List MdNode)
  | meta
  | custom
  deriving Repr
/-- `string | Node[]` content payloads. -/
inductive MdContent where
  | str (s : String)
  | nodes (l : List MdNode)
  deriving Repr
/-- A `listItem` node. -/
inductive MdListItem where
  | mk (content : List MdNode)
  deriving Repr
/-- A `tableRow` node. -/
inductive MdTableRow where
  | mk (cells : List MdTableCell)
  deriving Repr
/-- A `tableCell` node. -/
inductive MdTableCell where
  | mk (content : MdContent) (colId : Option String) (colspan : Option Nat)
      (rowspan : Option Nat)
  deriving Repr
end

/-- The cell list of a row. -/
def cellsOf : MdTableRow → List MdTableCell
  | .mk cells => cells

/-- A cell's content. -/
def cellContentOf : MdTableCell → MdContent
  | .mk c _ _ _ => c

/-- A cell's column id. -/
def cellColIdOf : MdTableCell → Option String
  | .mk _ i _ _ => i

/-- A cell's colspan field. -/
def cellColspanOf : MdTableCell → Option Nat
  | .mk _ _ c _ => c

/-- A cell's rowspan field. -/
def cellRowspanOf : MdTableCell → Option Nat
  | .mk _ _ _ r => r

/-- The content list of a list item. -/
def itemContentOf : MdListItem → List MdNode
  | .mk content => content

/-! ### Translator configuration -/

/-- The `ExtractOptions` fields consulted on the modelled (default,
hook-free, metadata-free, visibility-filter-free) configuration. -/
structure ExtractOptions where
  websiteDomain : Option String
  excludeTagNames : List String
  enableTableColumnTracking : Bool
  deriving Repr

/-- All-defaults options. -/
def defaultOptions : ExtractOptions :=
  { websiteDomain := none, excludeTagNames := [], enableTableColumnTracking := false }

/-- `websiteDomain` prefix stripping shared by the `a` / `img`
translators. -/
def stripDomain (options : ExtractOptions) (url : String) : String :=
  match options.websiteDomain with
  | some d => if strStartsWith url d then ⟨url.data.drop d.data.length⟩ else url
  | none => url

/-- Is this node a DOM text node? -/
def isTextNodeB : DomNode → Bool
  | .text _ => true
  | .elem _ _ _ => false

/-- The element children of a child-node list (`element.children`). -/
def elemChildren (l : List DomNode) : List DomNode :=
  l.filter (fun n => !isTextNodeB n)

/-- `cell.getAttribute(name) || '1'`. -/
def attrOrDefault1 (cell : DomNode) (name : String) : String :=
  match attrOf cell name with
  | none => "1"
  | some v => if v = "" then "1" else v

/-- `colspan > 1 ? colspan : undefined` (NaN compares false). -/
def spanField : Option Int → Option Nat
  | some v => if 1 < v then some v.toNat else none
  | none => none

/-- `columnIndex += colspan` with NaN propagation (`none` is NaN). -/
def advanceCol (ci : Option Int) (sp : Option Int) : Option Int :=
  match ci, sp with
  | some i, some v => some (i + v)
  | _, _ => none

/-- The running `columnIndex` value in front of each cell of a row. -/
def cellStartIndices (cells : List DomNode) : List (Option Int) :=
  List.scanl advanceCol (some 0)
    (cells.map (fun c => jsParseInt (attrOrDefault1 c "colspan")))

/-- `colIds[columnIndex]` (undefined for NaN or out-of-range indices). -/
def colIdAt (colIds : List String) (ci : Option Int) : Option String :=
  match ci with
  | some i => if 0 ≤ i then colIds[i.toNat]? else none
  | none => none

theorem sizeOf_lt_of_mem_elemChildren (l : List DomNode) (x : DomNode)
    (h : x ∈ elemChildren l) : sizeOf x < sizeOf l :=
  List.sizeOf_lt_of_mem (List.mem_of_mem_filter h)

/-! ### The translator (`htmlToMarkdownAST`, table-driven variant) -/

mutual
/-- `htmlToMarkdownAST(element, options, indentLevel)`: translate the
child nodes of `element` (never the element itself). -/
def htmlToMarkdownAST (element : DomNode) (options : ExtractOptions)
    (indentLevel : Nat) : List MdNode :=
  translateChildren (childrenOf element) (tagOf element) options indentLevel
termination_by 4 * sizeOf element
decreasing_by
  have h1 := sizeOf_childrenOf_lt element
  omega

/-- The `childNodes.forEach(processChild)` loop; results are appended in
order. -/
def translateChildren (children : List DomNode) (parentTag : String)
    (options : ExtractOptions) (indentLevel : Nat) : List MdNode :=
  match children with
  | [] => []
  | c :: rest =>
    translateChild c parentTag options indentLevel
      ++ translateChildren rest parentTag options indentLevel
termination_by 4 * sizeOf children + 2
decreasing_by
  all_goals simp only [List.cons.sizeOf_spec]
  all_goals omega

/-- `processChild` plus the per-tag translator dispatch. -/
def translateChild (child : DomNode) (parentTag : String) (options : ExtractOptions)
    (indentLevel : Nat) : List MdNode :=
  match child with
  | .text s =>
    let t := escapeMarkdownCharacters (strTrimS s) false
    if t = "" then [] else [MdNode.text t]
  | .elem tag attrs cs =>
    let el := DomNode.elem tag attrs cs
    -- a slot element is replaced by its assigned nodes; with no shadow
    -- DOM, `assignedNodes()` is empty
    if asciiUpper tag = "SLOT" then []
    else if options.excludeTagNames.contains (asciiLower tag) then []
    else
      let tl := asciiLower tag
      if tl = "p" then
        let content := htmlToMarkdownAST el options 0
        if content.isEmpty then [] else content ++ [MdNode.text "\n\n"]
      else if tl = "a" then
        let href0 := attrOr el "href" ""
        if strStartsWith href0 "data:image" then
          [MdNode.link "-" (htmlToMarkdownAST el options 0)]
        else
          let href := stripDomain options href0
          if cs.all isTextNodeB then
            [MdNode.link href [MdNode.text (strTrimS ⟨textContentOf el⟩)]]
          else
            let content := htmlToMarkdownAST el options 0
            if content.isEmpty then [] else [MdNode.link href content]
      else if tl = "img" then
        let src0 := attrOr el "src" ""
        if strStartsWith src0 "data:image" then
          [MdNode.image "-" (some (escapeMarkdownCharacters (attrOr el "alt" "") false))]
        else
          [MdNode.image (stripDomain options src0)
            (some (escapeMarkdownCharacters (attrOr el "alt" "") false))]
      else if tl = "video" then
        [MdNode.video (attrOr el "src" "")
          (some (escapeMarkdownCharacters (attrOr el "poster" "") false))
          (attrOf el "controls").isSome]
      else if tl = "br" then [MdNode.text "\n"]
      else if tl = "hr" then [MdNode.text "\n\n"]
      else if tl = "table" then
        let colIds : List String :=
          if options.enableTableColumnTracking then
            (collectTagsIn ["th", "td"] cs).enum.map (fun p => "col-" ++ toString p.1)
          else []
        let trs := collectTagsIn ["tr"] cs
        let rowsMd : List MdTableRow :=
          trs.attach.map (fun rp =>
            let rowCells := collectTagsIn ["th", "td"] (childrenOf rp.1)
            MdTableRow.mk
              (((rowCells.zip (cellStartIndices rowCells)).attach).map (fun cp =>
                -- the source's `cell.nodeType === TEXT_NODE` content
                -- branch is dead: collected cells are elements
                MdTableCell.mk
                  (MdContent.nodes (htmlToMarkdownAST cp.1.1 options (indentLevel + 1)))
                  (colIdAt colIds cp.1.2)
                  (spanField (jsParseInt (attrOrDefault1 cp.1.1 "colspan")))
                  (spanField (jsParseInt (attrOrDefault1 cp.1.1 "rowspan"))))))
        let rowsMd2 :=
          match trs, rowsMd with
          | tr0 :: _, r0 :: rrest =>
            if (collectTagsIn ["th"] (childrenOf tr0)).isEmpty then rowsMd
            else
              r0
                :: MdTableRow.mk
                    ((collectTagsIn ["th", "td"] (childrenOf tr0)).map
                      (fun _ => MdTableCell.mk (MdContent.str "---") none none none))
                :: rrest
          | _, _ => rowsMd
        [MdNode.table rowsMd2 colIds]
      else if tl = "blockquote" then [MdNode.blockquote (htmlToMarkdownAST el options 0)]
      else if tl = "code" then
        let content := strTrimS ⟨textContentOf el⟩
        if content = "" then []
        else
          let language := ((classListOf el).find? (fun cl => strStartsWith cl "language-")).map
            (fun cl => (⟨cl.data.drop 9⟩ : String))
          [MdNode.code content language (asciiUpper parentTag != "PRE")]
      else if tl = "h1" then [MdNode.heading 1 (MdContent.nodes (htmlToMarkdownAST el options 0))]
      else if tl = "h2" then [MdNode.heading 2 (MdContent.nodes (htmlToMarkdownAST el options 0))]
      else if tl = "h3" then [MdNode.heading 3 (MdContent.nodes (htmlToMarkdownAST el options 0))]
      else if tl = "h4" then [MdNode.heading 4 (MdContent.nodes (htmlToMarkdownAST el options 0))]
      else if tl = "h5" then [MdNode.heading 5 (MdContent.nodes (htmlToMarkdownAST el options 0))]
      else if tl = "h6" then [MdNode.heading 6 (MdContent.nodes (htmlToMarkdownAST el options 0))]
      else if tl = "ul" then
        [MdNode.list false
          ((elemChildren cs).attach.map (fun lp =>
            MdListItem.mk (htmlToMarkdownAST lp.1 options (indentLevel + 1))))]
      else if tl = "ol" then
        [MdNode.list true
          ((elemChildren cs).attach.map (fun lp =>
            MdListItem.mk (htmlToMarkdownAST lp.1 options (indentLevel + 1))))]
      else if tl = "strong" ∨ tl = "b" then
        if (jsTrim (textContentOf el)).isEmpty then []
        else [MdNode.bold (MdContent.nodes (htmlToMarkdownAST el options (indentLevel + 1)))]
      else if tl = "em" ∨ tl = "i" then
        if (jsTrim (textContentOf el)).isEmpty then []
        else [MdNode.italic (MdContent.nodes (htmlToMarkdownAST el options (indentLevel + 1)))]
      else if tl = "s" then
        if (jsTrim (textContentOf el)).isEmpty then []
        else
          [MdNode.strikethrough
            (MdContent.nodes (htmlToMarkdownAST el options (indentLevel + 1)))]
      else if tl = "article" ∨ tl = "aside" ∨ tl = "details" ∨ tl = "figcaption"
          ∨ tl = "figure" ∨ tl = "footer" ∨ tl = "header" ∨ tl = "main" ∨ tl = "mark"
          ∨ tl = "nav" ∨ tl = "section" ∨ tl = "summary" ∨ tl = "time" then
        [MdNode.semanticHtml tl (htmlToMarkdownAST el options 0)]
      else if tl = "noscript" ∨ tl = "script" ∨ tl = "style" ∨ tl = "html" then []
      else htmlToMarkdownAST el options (indentLevel + 1)
termination_by 4 * sizeOf child + 3
decreasing_by
  all_goals simp only [List.cons.sizeOf_spec, DomNode.elem.sizeOf_spec]
  all_goals first
    | omega
    | (rename_i lp
       have h1 := sizeOf_lt_of_mem_elemChildren _ lp.1 lp.2
       omega)
    | (rename_i rp cp
       have h1 := sizeOf_lt_of_mem_collectTagsIn ["tr"] _ rp.1 rp.2
       have h2 := sizeOf_lt_of_mem_collectTagsIn ["th", "td"] _ cp.1.1
         (List.of_mem_zip cp.2).1
       have h3 := sizeOf_childrenOf_lt rp.1
       omega)
end

/-! ### URL refification (src/core/urlUtils.ts) -/

/-- The media/document suffix list of urlUtils.ts. -/
def mediaSuffixes : List String :=
  ["jpeg", "jpg", "png", "gif", "bmp", "tiff", "tif", "svg", "webp", "ico",
   "avi", "mov", "mp4", "mkv", "flv", "wmv", "webm", "mpeg", "mpg",
   "mp3", "wav", "aac", "ogg", "flac", "m4a",
   "pdf", "doc", "docx", "ppt", "pptx", "xls", "xlsx", "txt",
   "css", "js", "xml", "json", "html", "htm"]

/-- The URL reference table (`prefixesToRefs`), an insertion-ordered map
(JS plain object with string keys). -/
abbrev UrlMap := List (String × String)

/-- `addRefPrefix` from urlUtils.ts (renamed `addRef` here): return the
token of `pre`, assigning `ref<n>` (with `n` the current entry count) on
first encounter. The assigned values are never the empty string, so the
JS falsy test agrees with the lookup test. -/
def addRef (pre : String) (prefixesToRefs : UrlMap) : String × UrlMap :=
  match prefixesToRefs.lookup pre with
  | some v => (v, prefixesToRefs)
  | none =>
    let tok := "ref" ++ toString prefixesToRefs.length
    (tok, prefixesToRefs ++ [(pre, tok)])

/-- `processUrl` from urlUtils.ts. -/
def processUrl (url : String) (prefixesToRefs : UrlMap) : String × UrlMap :=
  if strStartsWith url "http" = false then (url, prefixesToRefs)
  else
    let dotParts := jsSplitOnChar '.' url.data
    let mediaSuffix : String := ⟨dotParts.getLastD []⟩
    if mediaSuffix ≠ "" ∧ mediaSuffixes.contains mediaSuffix then
      let parts := jsSplitOnChar '/' url.data
      let pre : String := ⟨List.intercalate ['/'] parts.dropLast⟩
      let r := addRef pre prefixesToRefs
      (r.1 ++ "://" ++ (⟨parts.getLastD []⟩ : String), r.2)
    else if 4 < (jsSplitOnChar '/' url.data).length then
      addRef url prefixesToRefs
    else (url, prefixesToRefs)

mutual
/-- `refifyUrls` on a single node, state-passing form of the in-place
mutation: the switch rewrites `href`/`src` for `link`/`image`/`video`
and recurses into `link` content, `list` items, `table` cells,
`blockquote` and `semanticHtml` content; every other node kind (text,
bold, italic, strikethrough, heading, code, meta, custom) has no case
and is returned unchanged. -/
def refifyNode : MdNode → UrlMap → MdNode × UrlMap
  | .link href content, urlMap =>
    let p := processUrl href urlMap
    let r := refifyList content p.2
    (.link p.1 r.1, r.2)
  | .image src alt, urlMap =>
    let p := processUrl src urlMap
    (.image p.1 alt, p.2)
  | .video src poster controls, urlMap =>
    let p := processUrl src urlMap
    (.video p.1 poster controls, p.2)
  | .list ordered items, urlMap =>
    let r := refifyItems items urlMap
    (.list ordered r.1, r.2)
  | .table rows colIds, urlMap =>
    let r := refifyRows rows urlMap
    (.table r.1 colIds, r.2)
  | .blockquote content, urlMap =>
    let r := refifyList content urlMap
    (.blockquote r.1, r.2)
  | .semanticHtml htmlType content, urlMap =>
    let r := refifyList content urlMap
    (.semanticHtml htmlType r.1, r.2)
  | n, urlMap => (n, urlMap)
/-- `refifyUrls` over a node array (`forEach`, left to right). -/
def refifyList : List MdNode → UrlMap → List MdNode × UrlMap
  | [], m => ([], m)
  | n :: rest, m =>
    let r1 := refifyNode n m
    let r2 := refifyList rest r1.2
    (r1.1 :: r2.1, r2.2)
/-- `items.forEach(item => item.content.forEach(...))`. -/
def refifyItems : List MdListItem → UrlMap → List MdListItem × UrlMap
  | [], m => ([], m)
  | .mk content :: rest, m =>
    let r1 := refifyList content m
    let r2 := refifyItems rest r1.2
    (.mk r1.1 :: r2.1, r2.2)
/-- `rows.forEach(row => row.cells.forEach(...))`. -/
def refifyRows : List MdTableRow → UrlMap → List MdTableRow × UrlMap
  | [], m => ([], m)
  | .mk cells :: rest, m =>
    let r1 := refifyCells cells m
    let r2 := refifyRows rest r1.2
    (.mk r1.1 :: r2.1, r2.2)
/-- String cell contents are skipped; node-list contents are recursed
into. -/
def refifyCells : List MdTableCell → UrlMap → List MdTableCell × UrlMap
  | [], m => ([], m)
  | .mk (MdContent.str s) colId csp rsp :: rest, m =>
    let r2 := refifyCells rest m
    (.mk (MdContent.str s) colId csp rsp :: r2.1, r2.2)
  | .mk (MdContent.nodes l) colId csp rsp :: rest, m =>
    let r1 := refifyList l m
    let r2 := refifyCells rest r1.2
    (.mk (MdContent.nodes r1.1) colId csp rsp :: r2.1, r2.2)
end

/-- `refifyUrls(markdownElement, urlMap)` on a node array; the source
mutates the nodes in place and returns the map, the model returns both. -/
def refifyUrls (ast : List MdNode) (urlMap : UrlMap) : List MdNode × UrlMap :=
  refifyList ast urlMap

/-! ### The renderer (src/core/markdownASTToString.ts) -/

/-- The punctuation class `[.,!?;:]` of the inline spacing rule. -/
def punctChars : List Char := ['.', ',', '!', '?', ';', ':']

/-- `/\s/.test(s.slice(-1))` (false for the empty string). -/
def lastCharIsWs (s : String) : Bool :=
  match s.data.getLast? with
  | some c => jsIsWs c
  | none => false

/-- `/\s/.test(content.charAt(0))`. -/
def firstCharIsWs (s : String) : Bool :=
  match s.data.head? with
  | some c => jsIsWs c
  | none => false

/-- `content.length === 1 && /^[.,!?;:]/.test(content)`. -/
def isPunctContent (content : String) : Bool :=
  content.length == 1
    && (match content.data.head? with
        | some c => punctChars.contains c
        | none => false)

/-- Whether the inline renderer inserts one separating space. -/
def spacingNeeded (acc content : String) : Bool :=
  (acc.length != 0) && !isPunctContent content && !firstCharIsWs content && !lastCharIsWs acc

/-- `' '.repeat(indentLevel * 2)`. -/
def indentStr (indentLevel : Nat) : String := ⟨List.replicate (indentLevel * 2) ' '⟩

/-- `markdownString.slice(-1) === '\n'`. -/
def endsWithNewline (s : String) : Bool :=
  match s.data.getLast? with
  | some c => c = '\n'
  | none => false

/-- The characters JS `encodeURI` leaves unescaped besides
alphanumerics. -/
def uriUnescapedExtra : List Char :=
  [';', '/', '?', ':', '@', '&', '=', '+', '$', ',', '-', '_', '.', '!', '~', '*', '\x27',
   '(', ')', '#']

/-- Is the character left unchanged by `encodeURI`? -/
def isUriAllowed (c : Char) : Bool :=
  (c.isAlpha && c.toNat < 128) || c.isDigit || uriUnescapedExtra.contains c

/-- UTF-8 bytes of one character. -/
def utf8BytesOfChar (c : Char) : List Nat :=
  let n := c.toNat
  if n < 0x80 then [n]
  else if n < 0x800 then [0xC0 + n / 0x40, 0x80 + n % 0x40]
  else if n < 0x10000 then [0xE0 + n / 0x1000, 0x80 + (n / 0x40) % 0x40, 0x80 + n % 0x40]
  else [0xF0 + n / 0x40000, 0x80 + (n / 0x1000) % 0x40, 0x80 + (n / 0x40) % 0x40,
        0x80 + n % 0x40]

/-- One uppercase hex digit. -/
def hexDigitChar (n : Nat) : Char :=
  if n < 10 then Char.ofNat (48 + n) else Char.ofNat (55 + n)

/-- `%XX` percent-encoding of one character. -/
def percentEncodeChar (c : Char) : List Char :=
  (utf8BytesOfChar c).foldr
    (fun b acc => '%' :: hexDigitChar (b / 16) :: hexDigitChar (b % 16) :: acc) []

/-- JS `encodeURI`. -/
def jsEncodeURI (s : String) : String :=
  ⟨(s.data.map (fun c => if isUriAllowed c then [c] else percentEncodeChar c)).flatten⟩

/-- `cell.colspan || 1` (a stored `0` is falsy and counts as 1). -/
def jsColspanVal : Option Nat → Nat
  | some n => if n = 0 then 1 else n
  | none => 1

/-- `row.cells.reduce((sum, cell) => sum + (cell.colspan || 1), 0)`. -/
def rowColspanSum (row : MdTableRow) : Nat :=
  (cellsOf row).foldl (fun sum cell => sum + jsColspanVal (cellColspanOf cell)) 0

/-- `maxColumns`: `Math.max(...rows.map(rowColspanSum))`; for at least
one row the `0` fold base agrees with `Math.max` of the spread. -/
def tableMaxColumns (rows : List MdTableRow) : Nat :=
  (rows.map rowColspanSum).foldl Nat.max 0

/-- The `colId` / `colspan` / `rowspan` HTML comments appended to a
rendered cell content. A falsy `colId` (empty string) and colspan /
rowspan values not exceeding 1 emit nothing. -/
def cellComments (base : String) (colId : Option String) (csp rsp : Option Nat) : String :=
  let base1 :=
    match colId with
    | some cid => if cid = "" then base else base ++ " <!-- " ++ cid ++ " -->"
    | none => base
  let base2 :=
    match csp with
    | some c => if 1 < c then base1 ++ " <!-- colspan: " ++ toString c ++ " -->" else base1
    | none => base1
  match rsp with
  | some r => if 1 < r then base2 ++ " <!-- rowspan: " ++ toString r ++ " -->" else base2
  | none => base2

mutual
/-- `markdownContentASTToString(nodes, options, indentLevel)` in the
modelled hook-free configuration. -/
def markdownContentASTToString (nodes : List MdNode) (indentLevel : Nat) : String :=
  mdFold nodes indentLevel ""
/-- The `nodes.forEach` loop threading the accumulated output. -/
def mdFold (nodes : List MdNode) (indentLevel : Nat) (acc : String) : String :=
  match nodes with
  | [] => acc
  | n :: rest => mdFold rest indentLevel (mdStep acc n indentLevel)
termination_by 8 * sizeOf nodes + 1
decreasing_by
  all_goals simp only [List.cons.sizeOf_spec]
  all_goals omega
/-- `string | Node[]` content rendering for bold/italic/strikethrough
and headings. -/
def mdContentString (c : MdContent) (indentLevel : Nat) : String :=
  match c with
  | .str s => s
  | .nodes l => mdFold l indentLevel ""
termination_by 8 * sizeOf c + 5
decreasing_by
  simp only [MdContent.nodes.sizeOf_spec]
  omega
/-- Rendering of one node appended to the accumulated output `acc`. -/
def mdStep (acc : String) (node : MdNode) (indentLevel : Nat) : String :=
  match node with
  | .text content =>
    let acc1 := if spacingNeeded acc content then acc ++ " " else acc
    acc1 ++ indentStr indentLevel ++ content
  | .bold c =>
    let content := mdContentString c indentLevel
    let acc1 := if spacingNeeded acc content then acc ++ " " else acc
    acc1 ++ "**" ++ content ++ "**"
  | .italic c =>
    let content := mdContentString c indentLevel
    let acc1 := if spacingNeeded acc content then acc ++ " " else acc
    acc1 ++ "*" ++ content ++ "*"
  | .strikethrough c =>
    let content := mdContentString c indentLevel
    let acc1 := if spacingNeeded acc content then acc ++ " " else acc
    acc1 ++ "~~" ++ content ++ "~~"
  | .link href content =>
    let contentS := mdFold content indentLevel ""
    let acc1 := if spacingNeeded acc contentS then acc ++ " " else acc
    match content with
    | [MdNode.text _] =>
      acc1 ++ "[" ++ contentS ++ "](" ++ jsEncodeURI href ++ ")"
    | _ => acc1 ++ "<a href=\"" ++ href ++ "\">" ++ contentS ++ "</a>"
  | .heading level c =>
    let acc1 := if endsWithNewline acc then acc else acc ++ "\n"
    acc1 ++ (⟨List.replicate level '#'⟩ : String) ++ " " ++ mdContentString c indentLevel
      ++ "\n\n"
  | .image src alt =>
    if (jsTrim (alt.getD "").data).isEmpty || !(jsTrim src.data).isEmpty then
      acc ++ "![" ++ alt.getD "" ++ "](" ++ src ++ ")"
    else acc
  | .list ordered items => renderListItems items ordered indentLevel 0 acc ++ "\n"
  | .video src poster controls =>
    let a1 := acc ++ "\n![Video](" ++ src ++ ")\n"
    let a2 :=
      match poster with
      | some p => if p = "" then a1 else a1 ++ "![Poster](" ++ p ++ ")\n"
      | none => a1
    let a3 := if controls then a2 ++ "Controls: true\n" else a2
    a3 ++ "\n"
  | .table rows _ => renderTableRows rows (tableMaxColumns rows) indentLevel acc ++ "\n"
  | .code content language inline =>
    if inline then
      (if lastCharIsWs acc then acc else acc ++ " ") ++ "\x60" ++ content ++ "\x60"
    else
      acc ++ "\n\x60\x60\x60" ++ language.getD "" ++ "\n" ++ content
        ++ "\n\x60\x60\x60\n\n"
  | .blockquote content => acc ++ "> " ++ strTrimS (mdFold content 0 "") ++ "\n\n"
  | .semanticHtml htmlType content =>
    if htmlType = "article" then acc ++ "\n\n" ++ mdFold content 0 ""
    else if htmlType = "section" then
      acc ++ "---\n\n" ++ mdFold content 0 "" ++ "\n\n" ++ "---\n\n"
    else if htmlType = "summary" ∨ htmlType = "time" ∨ htmlType = "aside" ∨ htmlType = "nav"
        ∨ htmlType = "figcaption" ∨ htmlType = "main" ∨ htmlType = "mark"
        ∨ htmlType = "header" ∨ htmlType = "footer" ∨ htmlType = "details"
        ∨ htmlType = "figure" then
      acc ++ "\n\n<-" ++ htmlType ++ "->\n" ++ mdFold content 0 "" ++ "\n\n</-" ++ htmlType
        ++ "->\n"
    else acc
  | .meta => acc
  | .custom => acc
termination_by 8 * sizeOf node + 6
decreasing_by
  all_goals simp only [MdNode.bold.sizeOf_spec, MdNode.italic.sizeOf_spec,
    MdNode.strikethrough.sizeOf_spec, MdNode.link.sizeOf_spec, MdNode.heading.sizeOf_spec,
    MdNode.list.sizeOf_spec, MdNode.table.sizeOf_spec, MdNode.blockquote.sizeOf_spec,
    MdNode.semanticHtml.sizeOf_spec]
  all_goals omega
/-- The `node.items.forEach` loop of the list renderer (`i` is the item
index). -/
def renderListItems (items : List MdListItem) (ordered : Bool) (indentLevel : Nat) (i : Nat)
    (acc : String) : String :=
  match items with
  | [] => acc
  | .mk content :: rest =>
    let contents := strTrimS (mdFold content (indentLevel + 1) "")
    let acc1 := if endsWithNewline acc then acc else acc ++ "\n"
    let acc2 :=
      if contents = "" then acc1
      else
        acc1 ++ indentStr indentLevel ++ (if ordered then toString (i + 1) ++ "." else "-")
          ++ " " ++ contents ++ "\n"
    renderListItems rest ordered indentLevel (i + 1) acc2
termination_by 8 * sizeOf items + 2
decreasing_by
  all_goals simp only [List.cons.sizeOf_spec, MdListItem.mk.sizeOf_spec]
  all_goals omega
/-- One rendered cell: its content (trimmed when a node list), then the
`colId` / `colspan` / `rowspan` HTML comments. -/
def renderCellString (cell : MdTableCell) (indentLevel : Nat) : String :=
  match cell with
  | .mk (MdContent.str s) colId csp rsp => cellComments s colId csp rsp
  | .mk (MdContent.nodes l) colId csp rsp =>
    cellComments (strTrimS (mdFold l (indentLevel + 1) "")) colId csp rsp
termination_by 8 * sizeOf cell + 4
decreasing_by
  simp only [MdTableCell.mk.sizeOf_spec, MdContent.nodes.sizeOf_spec]
  omega
/-- The `|`-prefixed segments emitted for a cell list: one `| content `
segment per cell plus `| ` filler per extra colspan column. -/
def renderCells (cells : List MdTableCell) (indentLevel : Nat) : List String :=
  match cells with
  | [] => []
  | cell :: rest =>
    (("| " ++ renderCellString cell indentLevel ++ " ")
        :: List.replicate (jsColspanVal (cellColspanOf cell) - 1) "| ")
      ++ renderCells rest indentLevel
termination_by 8 * sizeOf cells + 1
decreasing_by
  all_goals simp only [List.cons.sizeOf_spec]
  all_goals omega
/-- All `|`-prefixed segments of one emitted table row: the cell
segments followed by the `|  ` padding up to `maxColumns`; the row is
closed by a final `|\n` (emitted by `renderTableRows`). -/
def rowSegments (row : MdTableRow) (maxColumns : Nat) (indentLevel : Nat) : List String :=
  match row with
  | .mk cells =>
    renderCells cells indentLevel
      ++ List.replicate (maxColumns - rowColspanSum (.mk cells)) "|  "
termination_by 8 * sizeOf row + 2
decreasing_by
  simp only [MdTableRow.mk.sizeOf_spec]
  omega
/-- The `node.rows.forEach` loop of the table renderer. -/
def renderTableRows (rows : List MdTableRow) (maxColumns : Nat) (indentLevel : Nat)
    (acc : String) : String :=
  match rows with
  | [] => acc
  | row :: rest =>
    renderTableRows rest maxColumns indentLevel
      (acc ++ String.join (rowSegments row maxColumns indentLevel) ++ "|\n")
termination_by 8 * sizeOf rows + 3
decreasing_by
  all_goals simp only [List.cons.sizeOf_spec]
  all_goals omega
end

/-- `markdownASTToString`: the front-matter phase (requested by
`emitFrontMatter`, which the modelled configuration leaves unset, so it
contributes the empty string) followed by the body phase. -/
def markdownASTToString (nodes : List MdNode) (indentLevel : Nat) : String :=
  markdownContentASTToString nodes indentLevel

/-! ### Entry points (src/index.ts) -/

/-- The options of `convertHtmlToMarkdown` / `convertElementToMarkdown`
(the fields consulted in the modelled configuration).
`refifyUrlsFlag` is the source's `refifyUrls` option. -/
structure ConversionOptions extends ExtractOptions where
  refifyUrlsFlag : Bool
  urlMap : UrlMap
  extractMainContent : Bool
  overrideDOMParser : Option (String → DomNode)

/-- All-defaults conversion options. -/
def defaultConversionOptions : ConversionOptions :=
  { websiteDomain := none, excludeTagNames := [], enableTableColumnTracking := false,
    refifyUrlsFlag := false, urlMap := [], extractMainContent := false,
    overrideDOMParser := none }

/-- `convertElementToMarkdown`: translate, optionally refify, render. -/
def convertElementToMarkdown (element : DomNode) (options : ConversionOptions) : String :=
  let ast := htmlToMarkdownAST element options.toExtractOptions 0
  let ast2 := if options.refifyUrlsFlag then (refifyUrls ast options.urlMap).1 else ast
  markdownASTToString ast2 0

/-- The error message thrown when no DOM parser is available. -/
def parserErrorMessage : String :=
  "DOMParser is not available. Please provide an overrideDOMParser in options."

/-- `convertHtmlToMarkdown`: `overrideDOMParser ?? host DOMParser`; with
neither available the configuration error is thrown before parsing
(`Except.error`); otherwise parse, select the root element
(`findMainContent` under `extractMainContent`, else `body ||
documentElement`; the metadata head re-attach branch is outside the
modelled no-metadata configuration) and convert it. -/
def convertHtmlToMarkdown (html : String) (options : ConversionOptions)
    (hostDOMParser : Option (String → DomNode)) : Except String String :=
  match options.overrideDOMParser <|> hostDOMParser with
  | none => .error parserErrorMessage
  | some parse =>
    let doc := parse html
    let element :=
      if options.extractMainContent then findMainContent doc
      else (docBody doc).getD doc
    .ok (convertElementToMarkdown element options)

/-! ### Definitions used by the verification statements -/

/-- The per-character description of the escaping rule as specified:
`&` first, then the angle brackets, then the Markdown special
characters, one backslash each. -/
def escMapChar (c : Char) : List Char :=
  if c = '&' then ampRep
  else if c = '<' then ltRep
  else if c = '>' then gtRep
  else if c ∈ mdEscapeChars then ['\\', c]
  else [c]

/-- All characters changed by `escapeMarkdownCharacters`. -/
def escapeRelevantChars : List Char := '&' :: '<' :: '>' :: mdEscapeChars

/-- Example paragraph. -/
def exP1 : DomNode := .elem "p" [] [.text "hello one"]

/-- Example paragraph. -/
def exP2 : DomNode := .elem "p" [] [.text "hello two"]

/-- Example paragraph. -/
def exP3 : DomNode := .elem "p" [] [.text "hello three"]

/-- A nested high-scoring element: `article` tag (+5), 3 paragraph
descendants (+3), zero link density (+5), `data-main` (+10),
`role="main"` (+10): score 33. -/
def exB : DomNode := .elem "article" [("data-main", ""), ("role", "main")] [exP1, exP2, exP3]

/-- Its parent: class tokens `content` and `main` (+10 each), 3
paragraph descendants (+3), zero link density (+5): score 28. -/
def exA : DomNode := .elem "div" [("class", "content main")] [exB]

/-- A body with candidate set `[([0], exA), ([0, 0], exB)]`: the
higher-scoring candidate `exB` is a strict descendant of `exA`. -/
def exBody : DomNode := .elem "body" [] [exA]

/-- The element of the C7 counterexample: its id `main-content`
contains the vocabulary words `content`, `main` and `main-content`. -/
def c7elem : DomNode := .elem "div" [("id", "main-content")] []

/-- A URL with more than 4 `/`-separated segments and no media suffix,
so `processUrl` replaces it by a `ref<n>` token. -/
def c2url : String := "http://a.com/b/c/d"

/-- An AST holding a link inside a heading's content. -/
def c2ast : List MdNode :=
  [MdNode.heading 1 (MdContent.nodes [MdNode.link c2url [MdNode.text "x"]])]

/-- An anchor with a non-text child whose recursive translation
collapses to a single text node. -/
def c3anchor : DomNode := .elem "a" [("href", "http://x")] [.elem "span" [] [.text "hi"]]

/-- A `data:image` anchor with no children. -/
def c6anchor1 : DomNode := .elem "a" [("href", "data:image/png;base64,AAA")] []

/-- An ordinary anchor with no children. -/
def c6anchor2 : DomNode := .elem "a" [("href", "http://x")] []

/-- A table row whose colspan sum is 3. -/
def c5row1 : MdTableRow :=
  .mk [.mk (.str "a") none (some 2) none, .mk (.str "b") none none none]

/-- A table row whose colspan sum is 1. -/
def c5row2 : MdTableRow := .mk [.mk (.str "c") none none none]

/-- A two-row table with `maxColumns = 3`. -/
def c5rows : List MdTableRow := [c5row1, c5row2]

/-! ### Helper lemmas -/

theorem mem_of_mem_enumFrom {α : Type} :
    ∀ (l : List α) (n : Nat) (p : Nat × α), p ∈ l.enumFrom n → p.2 ∈ l
  | [], _, _, h => by simp [List.enumFrom] at h
  | a :: l, n, p, h => by
    simp only [List.enumFrom, List.mem_cons] at h
    rcases h with rfl | h
    · exact List.mem_cons_self _ _
    · exact List.mem_cons_of_mem _ (mem_of_mem_enumFrom l (n + 1) p h)

theorem pickBest_eq (sorted : List Cand) (c0 : Cand)
    (h : ∀ p ∈ sorted.enum.drop 1, calculateScore p.2.2 ≤ calculateScore c0.2) :
    pickBest sorted c0 = c0 := by
  unfold pickBest
  revert h
  generalize sorted.enum.drop 1 = l
  intro h
  induction l with
  | nil => rfl
  | cons p t ih =>
    simp only [List.foldl_cons]
    rw [if_neg]
    · exact ih (fun q hq => h q (List.mem_cons_of_mem _ hq))
    · rintro ⟨-, hlt⟩
      exact absurd hlt (Nat.not_lt.mpr (h p (List.mem_cons_self _ _)))

theorem detect_eq_head (root : DomNode) (c0 : Cand) (rest : List Cand)
    (h : List.insertionSort scoreGe (collectCandidates root) = c0 :: rest) :
    detectMainContent root = c0 := by
  have hne : (collectCandidates root).isEmpty = false := by
    have hp := List.perm_insertionSort scoreGe (collectCandidates root)
    rw [h] at hp
    cases hcc : collectCandidates root with
    | nil => rw [hcc] at hp; exact absurd hp (by simp)
    | cons a l => simp
  have hsorted := List.sorted_insertionSort scoreGe (collectCandidates root)
  rw [h] at hsorted
  rcases List.sorted_cons.mp hsorted with ⟨hall, -⟩
  unfold detectMainContent
  simp only [hne, h, Bool.false_eq_true, if_false]
  apply pickBest_eq
  intro p hp
  have hdrop : ((c0 :: rest).enum.drop 1) = rest.enumFrom 1 := rfl
  rw [hdrop] at hp
  exact hall p.2 (mem_of_mem_enumFrom rest 1 p hp)

/-! ### C1 -/

/-- **C1, counterexample.** `detectMainContent` on `exBody` (no `<main>`
element, candidates `exA` at path `[0]` and its strict descendant `exB`
at path `[0, 0]`, scores 28 and 33) returns the nested candidate
`exB`, which IS a descendant of the other candidate `exA` — so it does
not return "the highest-scoring candidate that is not a descendant of
any other candidate" (that would be `exA`). -/
theorem c1_counterexample :
    detectMainContent exBody = ([0, 0], exB)
      ∧ findMainContent (.elem "html" [] [exBody]) = exB
      ∧ ([0], exA) ∈ collectCandidates exBody
      ∧ pathContains [0] [0, 0] = true
      ∧ ([0] : DomPath) ≠ [0, 0] := by
  refine ⟨rfl, rfl, ?_, rfl, by decide⟩
  exact List.mem_cons_self _ _

/-- **C1, amended.** For every document body whose candidate set is
non-empty, `detectMainContent` returns the head of the
descending-score-sorted candidate list — the maximum-score candidate
(ties broken by document order) — regardless of whether that candidate
is nested inside another candidate: the "best independent candidate"
replacement condition (a strictly greater score than the sorted head)
can never fire. -/
theorem c1_amended (root : DomNode) (c0 : Cand) (rest : List Cand)
    (h : List.insertionSort scoreGe (collectCandidates root) = c0 :: rest) :
    detectMainContent root = c0 :=
  detect_eq_head root c0 rest h

/-- Witness for `c1_amended` at the concrete document `exBody`. -/
theorem c1_amended_witness :
    List.insertionSort scoreGe (collectCandidates exBody) = [([0, 0], exB), ([0], exA)]
      ∧ detectMainContent exBody = ([0, 0], exB) :=
  ⟨rfl, c1_amended exBody ([0, 0], exB) [([0], exA)] rfl⟩

/-! ### C10 -/

/-- **C10.** Whenever the candidate set is non-empty, the element
returned by `detectMainContent` has a heuristic score at least the
score of every collected candidate: after the descending sort the
strictly-greater-score guard never holds, so the head of the sorted
candidate list is returned regardless of nesting. -/
theorem c10_score_maximal (root : DomNode) (hne : collectCandidates root ≠ [])
    (c : Cand) (hc : c ∈ collectCandidates root) :
    calculateScore c.2 ≤ calculateScore (detectMainContent root).2 := by
  obtain ⟨c0, rest, h⟩ :
      ∃ c0 rest, List.insertionSort scoreGe (collectCandidates root) = c0 :: rest := by
    cases hs : List.insertionSort scoreGe (collectCandidates root) with
    | nil =>
      exfalso
      have hp := List.perm_insertionSort scoreGe (collectCandidates root)
      rw [hs] at hp
      exact hne hp.nil_eq.symm
    | cons a l => exact ⟨a, l, rfl⟩
  rw [detect_eq_head root c0 rest h]
  have hp := List.perm_insertionSort scoreGe (collectCandidates root)
  have hcs : c ∈ c0 :: rest := by
    rw [← h]
    exact hp.mem_iff.mpr hc
  have hsorted := List.sorted_insertionSort scoreGe (collectCandidates root)
  rw [h] at hsorted
  rcases List.sorted_cons.mp hsorted with ⟨hall, -⟩
  rcases List.mem_cons.mp hcs with rfl | hmem
  · exact Nat.le_refl _
  · exact hall c hmem

/-- Witness for `c10_score_maximal` at `exBody` and the candidate
`([0], exA)`. -/
theorem c10_score_maximal_witness :
    collectCandidates exBody ≠ []
      ∧ calculateScore ((([0], exA) : Cand)).2
          ≤ calculateScore (detectMainContent exBody).2 := by
  have hcc : collectCandidates exBody = [([0], exA), ([0, 0], exB)] := rfl
  refine ⟨?_, c10_score_maximal exBody ?_ ([0], exA) ?_⟩
  · rw [hcc]; exact List.cons_ne_nil _ _
  · rw [hcc]; exact List.cons_ne_nil _ _
  · rw [hcc]; exact List.mem_cons_self _ _

/-! ### C4 -/

theorem jsReplaceChar_append (t : Char) (rep : List Char) (l1 l2 : List Char) :
    jsReplaceChar t rep (l1 ++ l2) = jsReplaceChar t rep l1 ++ jsReplaceChar t rep l2 := by
  induction l1 with
  | nil => rfl
  | cons c r ih => simp [jsReplaceChar, ih, List.append_assoc]

theorem backslashEscape_append (l1 l2 : List Char) :
    backslashEscape (l1 ++ l2) = backslashEscape l1 ++ backslashEscape l2 := by
  induction l1 with
  | nil => rfl
  | cons c r ih => simp [backslashEscape, ih, List.append_assoc]

theorem escapeChain_eq (l : List Char) :
    backslashEscape (jsReplaceChar '>' gtRep (jsReplaceChar '<' ltRep
        (jsReplaceChar '&' ampRep l)))
      = (l.map escMapChar).flatten := by
  induction l with
  | nil => rfl
  | cons c rest ih =>
    have hstep : jsReplaceChar '&' ampRep (c :: rest)
        = (if c = '&' then ampRep else [c]) ++ jsReplaceChar '&' ampRep rest := rfl
    rw [hstep, jsReplaceChar_append, jsReplaceChar_append, backslashEscape_append, ih,
      List.map_cons, List.flatten_cons]
    congr 1
    by_cases h1 : c = '&'
    · subst h1; rfl
    by_cases h2 : c = '<'
    · subst h2
      rw [show escMapChar '<' = ltRep from rfl]
      rfl
    by_cases h3 : c = '>'
    · subst h3
      rw [show escMapChar '>' = gtRep from rfl]
      rfl
    simp [jsReplaceChar, backslashEscape, escMapChar, h1, h2, h3]

/-- **C4.** For every input string that is not inline code and not
whitespace-only, `escapeMarkdownCharacters` replaces `&` first, then
`<` and `>`, then backslash-prefixes each Markdown special character —
equivalently, it acts as the single-pass per-character map
`escMapChar`, which sends `&` to `&amp;` without touching the `&` of
inserted entities (the content of the "ampersand first" ordering);
whitespace-only strings and inline-code calls return the input
unchanged. -/
theorem c4_escape_order (s : String) :
    ((jsTrim s.data).isEmpty = false →
      escapeMarkdownCharacters s false = ⟨(s.data.map escMapChar).flatten⟩)
    ∧ ((jsTrim s.data).isEmpty = true → escapeMarkdownCharacters s false = s)
    ∧ escapeMarkdownCharacters s true = s := by
  refine ⟨fun h => ?_, fun h => ?_, ?_⟩
  · simp only [escapeMarkdownCharacters, h, Bool.false_or, Bool.false_eq_true, if_false]
    rw [escapeChain_eq]
  · simp [escapeMarkdownCharacters, h]
  · simp [escapeMarkdownCharacters]

/-- Witness for `c4_escape_order` on `"a&<b*"`. -/
theorem c4_escape_order_witness :
    (jsTrim "a&<b*".data).isEmpty = false
      ∧ escapeMarkdownCharacters "a&<b*" false = ⟨("a&<b*".data.map escMapChar).flatten⟩ :=
  ⟨by decide, (c4_escape_order "a&<b*").1 (by decide)⟩

/-! ### C7 -/

theorem vocab_foldl_count (p : String → Bool) :
    ∀ (l : List String) (s : Nat),
      l.foldl (fun acc w => if p w then acc + 10 else acc) s = s + 10 * l.countP p := by
  intro l
  induction l with
  | nil => intro s; simp
  | cons w r ih =>
    intro s
    by_cases h : p w
    · simp [List.foldl_cons, ih, List.countP_cons, h]
      omega
    · simp [List.foldl_cons, ih, List.countP_cons, h]

/-- **C7, counterexample.** For the element with id `main-content`, the
vocabulary check matches (three words match: `content`, `main`,
`main-content`) but contributes 30, not the claimed single +10. -/
theorem c7_counterexample :
    highImpactAttributes.any (fun w => vocabMatch c7elem w) = true
      ∧ vocabScore c7elem = 30
      ∧ vocabScore c7elem ≠ 10 := by
  exact ⟨rfl, rfl, by decide⟩

/-- **C7, amended.** The id/class vocabulary check contributes exactly
`10 × k` to the element's score, where `k` is the number of matching
vocabulary words (`+10` per matching word, not a single `+10` for the
whole vocabulary). -/
theorem c7_amended (n : DomNode) :
    vocabScore n = 10 * highImpactAttributes.countP (fun w => vocabMatch n w) := by
  unfold vocabScore
  rw [vocab_foldl_count]
  simp

/-! ### C8 -/

theorem jsReplaceChar_id (t : Char) (rep : List Char) :
    ∀ l : List Char, (∀ c ∈ l, c ≠ t) → jsReplaceChar t rep l = l := by
  intro l h
  induction l with
  | nil => rfl
  | cons c r ih =>
    simp only [jsReplaceChar, h c (List.mem_cons_self _ _), if_false,
      ih (fun d hd => h d (List.mem_cons_of_mem _ hd)), List.singleton_append]

theorem backslashEscape_id :
    ∀ l : List Char, (∀ c ∈ l, c ∉ mdEscapeChars) → backslashEscape l = l := by
  intro l h
  induction l with
  | nil => rfl
  | cons c r ih =>
    simp only [backslashEscape, h c (List.mem_cons_self _ _), if_false,
      ih (fun d hd => h d (List.mem_cons_of_mem _ hd)), List.singleton_append]

/-- **C8, counterexample.** `escapeMarkdownCharacters` is not
idempotent: re-escaping an already-escaped `*` doubles the escape
characters (`*` → `\*` → `\\\*`). -/
theorem c8_counterexample :
    escapeMarkdownCharacters "*" false = "\\*"
      ∧ escapeMarkdownCharacters (escapeMarkdownCharacters "*" false) false
          ≠ escapeMarkdownCharacters "*" false := by
  exact ⟨rfl, by decide⟩

/-- **C8, amended.** Escaping is applied exactly once per text node by
the translator; the function itself is idempotent only on strings
containing no escape-relevant character (no `&`, `<`, `>` and none of
the Markdown special characters): such strings are returned unchanged,
so a second application changes nothing. On any other non-whitespace
input re-escaping adds additional backslashes (see the
counterexample). -/
theorem c8_amended (s : String) (h : ∀ c ∈ s.data, c ∉ escapeRelevantChars) :
    escapeMarkdownCharacters s false = s
      ∧ escapeMarkdownCharacters (escapeMarkdownCharacters s false) false
          = escapeMarkdownCharacters s false := by
  have h1 : ∀ c ∈ s.data, c ≠ '&' := fun c hc he =>
    h c hc (he ▸ (by decide : ('&' : Char) ∈ escapeRelevantChars))
  have h2 : ∀ c ∈ s.data, c ≠ '<' := fun c hc he =>
    h c hc (he ▸ (by decide : ('<' : Char) ∈ escapeRelevantChars))
  have h3 : ∀ c ∈ s.data, c ≠ '>' := fun c hc he =>
    h c hc (he ▸ (by decide : ('>' : Char) ∈ escapeRelevantChars))
  have h4 : ∀ c ∈ s.data, c ∉ mdEscapeChars := fun c hc hm =>
    h c hc (List.mem_cons_of_mem _ (List.mem_cons_of_mem _ (List.mem_cons_of_mem _ hm)))
  have hid : escapeMarkdownCharacters s false = s := by
    unfold escapeMarkdownCharacters
    split
    · rfl
    · rw [jsReplaceChar_id '&' ampRep s.data h1, jsReplaceChar_id '<' ltRep s.data h2,
        jsReplaceChar_id '>' gtRep s.data h3, backslashEscape_id s.data h4]
  exact ⟨hid, by rw [hid]; exact hid⟩

/-- Witness for `c8_amended` on `"abc"`. -/
theorem c8_amended_witness :
    escapeMarkdownCharacters "abc" false = "abc"
      ∧ escapeMarkdownCharacters (escapeMarkdownCharacters "abc" false) false
          = escapeMarkdownCharacters "abc" false :=
  c8_amended "abc" (by decide)

/-! ### C2 -/

/-- **C2, counterexample.** `refifyUrls` does not rewrite a link nested
inside a heading's content: the AST is returned unchanged and the map
stays empty, although `processUrl` would rewrite the href
(`"http://a.com/b/c/d"` has more than 4 `/`-segments and becomes
`"ref0"`). -/
theorem c2_counterexample :
    refifyUrls c2ast [] = (c2ast, [])
      ∧ processUrl c2url [] = ("ref0", [(c2url, "ref0")])
      ∧ ("ref0" : String) ≠ c2url :=
  ⟨rfl, rfl, by decide⟩

/-- **C2, amended.** A complete case characterization of the refifier:
it rewrites the `href`/`src` of link, image and video nodes and
recurses into link content, list items, table cells (node-list
contents only), blockquote content and semanticHtml content — so every
link/image/video node reachable through those positions is rewritten
according to `processUrl`, and only the `href`/`src` fields change;
but nodes of kind heading, bold, italic and strikethrough (and text,
code, meta, custom) are returned unchanged together with everything
nested inside their content — link/image/video nodes reachable only
through such content are NOT rewritten. -/
theorem c2_amended (urlMap : UrlMap) (lvl : Nat) (c cb ci cst : MdContent)
    (href : String) (content : List MdNode) (src : String) (alt : Option String)
    (vsrc : String) (poster : Option String) (controls : Bool)
    (ts cc : String) (lang : Option String) (inl ord : Bool)
    (items : List MdListItem) (rows : List MdTableRow) (colIds : List String)
    (bq sc ic cl : List MdNode) (ht : String)
    (irest : List MdListItem) (rrest : List MdTableRow)
    (cells : List MdTableCell) (crest : List MdTableCell)
    (cid : Option String) (csp rsp : Option Nat) (cstr : String) :
    refifyNode (.heading lvl c) urlMap = (.heading lvl c, urlMap)
      ∧ refifyNode (.bold cb) urlMap = (.bold cb, urlMap)
      ∧ refifyNode (.italic ci) urlMap = (.italic ci, urlMap)
      ∧ refifyNode (.strikethrough cst) urlMap = (.strikethrough cst, urlMap)
      ∧ refifyNode (.text ts) urlMap = (.text ts, urlMap)
      ∧ refifyNode (.code cc lang inl) urlMap = (.code cc lang inl, urlMap)
      ∧ refifyNode .meta urlMap = (.meta, urlMap)
      ∧ refifyNode .custom urlMap = (.custom, urlMap)
      ∧ refifyNode (.link href content) urlMap
          = (.link (processUrl href urlMap).1
              (refifyList content (processUrl href urlMap).2).1,
             (refifyList content (processUrl href urlMap).2).2)
      ∧ refifyNode (.image src alt) urlMap
          = (.image (processUrl src urlMap).1 alt, (processUrl src urlMap).2)
      ∧ refifyNode (.video vsrc poster controls) urlMap
          = (.video (processUrl vsrc urlMap).1 poster controls, (processUrl vsrc urlMap).2)
      ∧ refifyNode (.list ord items) urlMap
          = (.list ord (refifyItems items urlMap).1, (refifyItems items urlMap).2)
      ∧ refifyNode (.table rows colIds) urlMap
          = (.table (refifyRows rows urlMap).1 colIds, (refifyRows rows urlMap).2)
      ∧ refifyNode (.blockquote bq) urlMap
          = (.blockquote (refifyList bq urlMap).1, (refifyList bq urlMap).2)
      ∧ refifyNode (.semanticHtml ht sc) urlMap
          = (.semanticHtml ht (refifyList sc urlMap).1, (refifyList sc urlMap).2)
      ∧ refifyItems (.mk ic :: irest) urlMap
          = (.mk (refifyList ic urlMap).1 :: (refifyItems irest (refifyList ic urlMap).2).1,
             (refifyItems irest (refifyList ic urlMap).2).2)
      ∧ refifyRows (.mk cells :: rrest) urlMap
          = (.mk (refifyCells cells urlMap).1 :: (refifyRows rrest (refifyCells cells urlMap).2).1,
             (refifyRows rrest (refifyCells cells urlMap).2).2)
      ∧ refifyCells (.mk (MdContent.nodes cl) cid csp rsp :: crest) urlMap
          = (.mk (MdContent.nodes (refifyList cl urlMap).1) cid csp rsp
                :: (refifyCells crest (refifyList cl urlMap).2).1,
             (refifyCells crest (refifyList cl urlMap).2).2)
      ∧ refifyCells (.mk (MdContent.str cstr) cid csp rsp :: crest) urlMap
          = (.mk (MdContent.str cstr) cid csp rsp :: (refifyCells crest urlMap).1,
             (refifyCells crest urlMap).2)
      ∧ refifyList (.link href content :: bq) urlMap
          = ((refifyNode (.link href content) urlMap).1
                :: (refifyList bq (refifyNode (.link href content) urlMap).2).1,
             (refifyList bq (refifyNode (.link href content) urlMap).2).2) :=
  ⟨rfl, rfl, rfl, rfl, rfl, rfl, rfl, rfl, rfl, rfl, rfl, rfl, rfl, rfl, rfl, rfl, rfl, rfl,
   rfl, rfl⟩

/-! ### C9 -/

/-- **C9.** When no `overrideDOMParser` option is supplied and no host
`DOMParser` exists, `convertHtmlToMarkdown` fails with the
configuration error before any parsing, traversal or output
production, for every input string and every remaining option
configuration — the result is the error alone, with no partial
output. -/
theorem c9_parser_error (html : String) (options : ConversionOptions)
    (h : options.overrideDOMParser = none) :
    convertHtmlToMarkdown html options none = .error parserErrorMessage := by
  unfold convertHtmlToMarkdown
  rw [h]
  rfl

/-- Witness for `c9_parser_error` on the default options. -/
theorem c9_parser_error_witness :
    defaultConversionOptions.overrideDOMParser = none
      ∧ convertHtmlToMarkdown "<p>x</p>" defaultConversionOptions none
          = .error parserErrorMessage :=
  ⟨rfl, c9_parser_error "<p>x</p>" defaultConversionOptions rfl⟩

/-! ### C5 -/

theorem foldl_max_init_le : ∀ (l : List Nat) (a : Nat), a ≤ l.foldl Nat.max a := by
  intro l
  induction l with
  | nil => intro a; exact Nat.le_refl a
  | cons x r ih =>
    intro a
    exact Nat.le_trans (Nat.le_max_left a x) (ih (Nat.max a x))

theorem le_foldl_max : ∀ (l : List Nat) (a x : Nat), x ∈ l → x ≤ l.foldl Nat.max a := by
  intro l
  induction l with
  | nil => intro a x h; simp at h
  | cons y r ih =>
    intro a x h
    rcases List.mem_cons.mp h with rfl | h
    · exact Nat.le_trans (Nat.le_max_right a x) (foldl_max_init_le r (Nat.max a x))
    · exact ih (Nat.max a y) x h

theorem jsColspanVal_pos (o : Option Nat) : 1 ≤ jsColspanVal o := by
  match o with
  | none => exact Nat.le_refl 1
  | some n =>
    simp only [jsColspanVal]
    split
    · exact Nat.le_refl 1
    · omega

theorem foldl_add_init (f : MdTableCell → Nat) :
    ∀ (l : List MdTableCell) (a : Nat),
      l.foldl (fun s c => s + f c) a = a + (l.map f).sum := by
  intro l
  induction l with
  | nil => intro a; simp
  | cons c r ih =>
    intro a
    simp only [List.foldl_cons, ih, List.map_cons, List.sum_cons]
    omega

theorem renderCells_length (cells : List MdTableCell) (il : Nat) :
    (renderCells cells il).length
      = (cells.map (fun cell => jsColspanVal (cellColspanOf cell))).sum := by
  induction cells with
  | nil => simp [renderCells]
  | cons cell rest ih =>
    have h1 := jsColspanVal_pos (cellColspanOf cell)
    simp only [renderCells, List.cons_append, List.length_cons, List.length_append,
      List.length_replicate, ih, List.map_cons, List.sum_cons]
    omega

theorem rowColspanSum_eq (cells : List MdTableCell) :
    rowColspanSum (.mk cells)
      = (cells.map (fun cell => jsColspanVal (cellColspanOf cell))).sum := by
  unfold rowColspanSum
  rw [show cellsOf (.mk cells) = cells from rfl, foldl_add_init]
  omega

/-- **C5.** For every table node with at least one row (witnessed by
the membership `row ∈ rows`), with `maxColumns` the maximum over all
rows of the sum of the cells' colspans (default 1), every emitted row
consists of exactly `maxColumns` `|`-delimited cell segments (cell
segments, colspan filler cells and trailing padding cells together);
the table branch of the renderer emits exactly these segments, each
row closed by `|\n`. -/
theorem c5_table_columns (rows : List MdTableRow) (row : MdTableRow) (il : Nat)
    (hrow : row ∈ rows) :
    (rowSegments row (tableMaxColumns rows) il).length = tableMaxColumns rows
      ∧ ∀ (acc : String) (colIds : List String),
          mdStep acc (.table rows colIds) il
            = renderTableRows rows (tableMaxColumns rows) il acc ++ "\n" := by
  constructor
  · match row with
    | .mk cells =>
      simp only [rowSegments]
      rw [List.length_append, renderCells_length, List.length_replicate]
      have hle : rowColspanSum (.mk cells) ≤ tableMaxColumns rows := by
        unfold tableMaxColumns
        exact le_foldl_max _ 0 _ (List.mem_map_of_mem _ hrow)
      rw [rowColspanSum_eq] at hle ⊢
      omega
  · intro acc colIds
    simp only [mdStep]

/-- Witness for `c5_table_columns` on the concrete table `c5rows`
(colspan sums 3 and 1, `maxColumns = 3`) at its second row. -/
theorem c5_table_columns_witness :
    c5row2 ∈ c5rows
      ∧ (rowSegments c5row2 (tableMaxColumns c5rows) 0).length = tableMaxColumns c5rows :=
  ⟨List.mem_cons_of_mem _ (List.mem_cons_self _ _),
   (c5_table_columns c5rows c5row2 0 (List.mem_cons_of_mem _ (List.mem_cons_self _ _))).1⟩

/-! ### The anchor translator branch (shared by C3 and C6) -/

theorem translateChild_anchor (attrs : List (String × String)) (cs : List DomNode)
    (parentTag : String) (options : ExtractOptions) (il : Nat)
    (hex : options.excludeTagNames.contains "a" = false) :
    translateChild (.elem "a" attrs cs) parentTag options il
      = (if strStartsWith (attrOr (.elem "a" attrs cs) "href" "") "data:image" then
           [MdNode.link "-" (htmlToMarkdownAST (.elem "a" attrs cs) options 0)]
         else if cs.all isTextNodeB then
           [MdNode.link (stripDomain options (attrOr (.elem "a" attrs cs) "href" ""))
             [MdNode.text (strTrimS ⟨textContentOf (.elem "a" attrs cs)⟩)]]
         else if (htmlToMarkdownAST (.elem "a" attrs cs) options 0).isEmpty then []
         else
           [MdNode.link (stripDomain options (attrOr (.elem "a" attrs cs) "href" ""))
             (htmlToMarkdownAST (.elem "a" attrs cs) options 0)]) := by
  have e1 : asciiUpper "a" = "A" := rfl
  have e2 : asciiLower "a" = "a" := rfl
  simp +decide only [translateChild, e1, e2, hex, if_true, if_false]

/-! ### C6 -/

/-- **C6, counterexample.** A childless `data:image` anchor contributes
a link node whose content is the EMPTY list, and a childless ordinary
anchor contributes a link node with a single empty text node: anchors
with empty translated content are not always omitted, and a produced
link node's content can be empty. -/
theorem c6_counterexample :
    htmlToMarkdownAST (.elem "div" [] [c6anchor1]) defaultOptions 0
        = [MdNode.link "-" []]
      ∧ htmlToMarkdownAST (.elem "div" [] [c6anchor2]) defaultOptions 0
          = [MdNode.link "http://x" [MdNode.text ""]] := by
  constructor <;>
    simp +decide [htmlToMarkdownAST, translateChildren, translateChild, childrenOf, tagOf,
      defaultOptions, c6anchor1, c6anchor2, escapeMarkdownCharacters, strTrimS, jsTrim,
      attrOr, attrOf, stripDomain, textContentOf, textContentList, isTextNodeB, asciiLower,
      asciiUpper, strStartsWith]

/-- **C6, amended.** Only in the mixed-children branch — an anchor
whose href is not a `data:image` URL and that has at least one
non-text child — does an empty recursive translation suppress the
anchor. An anchor whose children are all text nodes (including a
childless anchor) always contributes exactly one link node whose
content is a single (possibly empty) text node, and a `data:image`
anchor always contributes a link node whose content may be the empty
list. -/
theorem c6_amended (attrs : List (String × String)) (cs : List DomNode)
    (parentTag : String) (options : ExtractOptions) (il : Nat)
    (hex : options.excludeTagNames.contains "a" = false) :
    (strStartsWith (attrOr (.elem "a" attrs cs) "href" "") "data:image" = false →
      cs.all isTextNodeB = false →
      htmlToMarkdownAST (.elem "a" attrs cs) options 0 = [] →
      translateChild (.elem "a" attrs cs) parentTag options il = [])
    ∧ (strStartsWith (attrOr (.elem "a" attrs cs) "href" "") "data:image" = false →
      cs.all isTextNodeB = true →
      translateChild (.elem "a" attrs cs) parentTag options il
        = [MdNode.link (stripDomain options (attrOr (.elem "a" attrs cs) "href" ""))
            [MdNode.text (strTrimS ⟨textContentOf (.elem "a" attrs cs)⟩)]])
    ∧ (strStartsWith (attrOr (.elem "a" attrs cs) "href" "") "data:image" = true →
      translateChild (.elem "a" attrs cs) parentTag options il
        = [MdNode.link "-" (htmlToMarkdownAST (.elem "a" attrs cs) options 0)]) := by
  rw [translateChild_anchor attrs cs parentTag options il hex]
  refine ⟨fun h1 h2 h3 => ?_, fun h1 h2 => ?_, fun h1 => ?_⟩
  · rw [if_neg (by simp [h1]), if_neg (by simp [h2]), if_pos (by simp [h3])]
  · rw [if_neg (by simp [h1]), if_pos h2]
  · rw [if_pos h1]

/-- Witness for `c6_amended` at the childless anchor
`<a href="http://x"></a>`. -/
theorem c6_amended_witness :
    defaultOptions.excludeTagNames.contains "a" = false
      ∧ strStartsWith (attrOr (.elem "a" [("href", "http://x")] []) "href" "") "data:image"
          = false
      ∧ ([] : List DomNode).all isTextNodeB = true
      ∧ translateChild (.elem "a" [("href", "http://x")] []) "div" defaultOptions 0
          = [MdNode.link "http://x" [MdNode.text ""]] := by
  refine ⟨rfl, rfl, rfl, ?_⟩
  have h := (c6_amended [("href", "http://x")] [] "div" defaultOptions 0 rfl).2.1 rfl rfl
  exact h.trans rfl

/-! ### C3 -/

/-- **C3, counterexample.** The anchor
`<a href="http://x"><span>hi</span></a>` has a non-text child, yet its
translation collapses to a single text node and the renderer emits the
compact `[hi](http://x)` form, not an HTML `<a>` tag. -/
theorem c3_counterexample :
    (childrenOf c3anchor).all isTextNodeB = false
      ∧ htmlToMarkdownAST (.elem "div" [] [c3anchor]) defaultOptions 0
          = [MdNode.link "http://x" [MdNode.text "hi"]]
      ∧ markdownContentASTToString [MdNode.link "http://x" [MdNode.text "hi"]] 0
          = "[hi](http://x)"
      ∧ strStartsWith "[hi](http://x)" "<a" = false := by
  refine ⟨rfl, ?_, ?_, rfl⟩
  · simp +decide [htmlToMarkdownAST, translateChildren, translateChild, childrenOf, tagOf,
      defaultOptions, c3anchor, escapeMarkdownCharacters, strTrimS, jsTrim, attrOr, attrOf,
      stripDomain, textContentOf, textContentList, isTextNodeB, asciiLower, asciiUpper,
      strStartsWith]
  · simp +decide [markdownContentASTToString, mdFold, mdStep, mdContentString, spacingNeeded,
      indentStr, isPunctContent, firstCharIsWs, lastCharIsWs, jsIsWs, jsEncodeURI,
      isUriAllowed, uriUnescapedExtra]

/-- **C3, amended.** The renderer picks the link form by the shape of
the link node's content, not by the anchor's children: content that is
exactly one text node renders in the compact
`[text](url-encoded-href)` form, any other content shape renders as an
HTML `<a href="...">` tag; and every anchor all of whose children are
plain text translates to a link node with exactly one text node, hence
renders compactly. An anchor with a non-text child renders as an HTML
`<a>` tag only when its recursive translation is not a single text
node. -/
theorem c3_amended (href : String) (content : List MdNode) (il : Nat) (acc : String) :
    (∀ s : String, content = [MdNode.text s] →
      mdStep acc (MdNode.link href content) il
        = (if spacingNeeded acc (mdFold content il "") then acc ++ " " else acc)
            ++ "[" ++ mdFold content il "" ++ "](" ++ jsEncodeURI href ++ ")")
    ∧ ((∀ s : String, content ≠ [MdNode.text s]) →
      mdStep acc (MdNode.link href content) il
        = (if spacingNeeded acc (mdFold content il "") then acc ++ " " else acc)
            ++ "<a href=\"" ++ href ++ "\">" ++ mdFold content il "" ++ "</a>")
    ∧ (∀ (attrs : List (String × String)) (cs : List DomNode) (parentTag : String)
        (options : ExtractOptions),
        options.excludeTagNames.contains "a" = false →
        strStartsWith (attrOr (.elem "a" attrs cs) "href" "") "data:image" = false →
        cs.all isTextNodeB = true →
        translateChild (.elem "a" attrs cs) parentTag options il
          = [MdNode.link (stripDomain options (attrOr (.elem "a" attrs cs) "href" ""))
              [MdNode.text (strTrimS ⟨textContentOf (.elem "a" attrs cs)⟩)]]) := by
  refine ⟨fun s hs => ?_, fun h => ?_, fun attrs cs parentTag options hex h1 h2 => ?_⟩
  · subst hs
    simp only [mdStep]
  · match content, h with
    | [], _ => simp only [mdStep]
    | [MdNode.text s], h => exact absurd rfl (h s)
    | [MdNode.bold c], _ => simp only [mdStep]
    | [MdNode.italic c], _ => simp only [mdStep]
    | [MdNode.strikethrough c], _ => simp only [mdStep]
    | [MdNode.heading lvl c], _ => simp only [mdStep]
    | [MdNode.link h2 c2], _ => simp only [mdStep]
    | [MdNode.image src alt], _ => simp only [mdStep]
    | [MdNode.video src poster ctl], _ => simp only [mdStep]
    | [MdNode.list o items], _ => simp only [mdStep]
    | [MdNode.table rows cids], _ => simp only [mdStep]
    | [MdNode.code ct lang inl], _ => simp only [mdStep]
    | [MdNode.blockquote c], _ => simp only [mdStep]
    | [MdNode.semanticHtml ht c], _ => simp only [mdStep]
    | [MdNode.meta], _ => simp only [mdStep]
    | [MdNode.custom], _ => simp only [mdStep]
    | a :: b :: rest, _ => simp only [mdStep]
  · rw [translateChild_anchor attrs cs parentTag options il hex,
      if_neg (by simp [h1]), if_pos h2]

/-- Witness for `c3_amended`: the compact form at a concrete singleton
text link. -/
theorem c3_amended_witness :
    mdStep "" (MdNode.link "http://x" [MdNode.text "hi"]) 0 = "[hi](http://x)" := by
  have h := (c3_amended "http://x" [MdNode.text "hi"] 0 "").1 "hi" rfl
  rw [h]
  simp +decide [mdFold, mdStep, mdContentString, spacingNeeded, indentStr, isPunctContent,
    firstCharIsWs, lastCharIsWs, jsIsWs, jsEncodeURI, isUriAllowed, uriUnescapedExtra]
